import Mathlib

/-!
Verification development for the `codecrafters-posix-shell` repository
(final source: `src/main.c`; two earlier revisions of the same file are
also present in the repository).

The C program is shallowly embedded: input lines are `List Char`, the
token array produced by `parse_arguments` is a `List (List Char)` (the C
code stores tokens as NUL-terminated strings), and fallible C functions
that return `NULL` are modelled with `Option`.
-/

namespace Shell

/-- The single-quote character `0x27`, written via its code point. -/
def squote : Char := Char.ofNat 39

/-- The backtick character `0x60`, written via its code point. -/
def btick : Char := Char.ofNat 96

/-- `isspace` from ctype.h in the "C" locale: space, tab, newline,
vertical tab `0x0b`, form feed `0x0c`, carriage return. -/
def shellIsSpace (c : Char) : Bool :=
  c = ' ' || c = '\t' || c = '\n' || c = Char.ofNat 11 || c = Char.ofNat 12 || c = '\r'

/-- `MAX_ARGS` from `src/main.c` line 15. -/
def MAX_ARGS : Nat := 64

/-- Finalizing the current-argument buffer as one more token
(`src/main.c` e.g. lines 385-402): an empty buffer emits nothing; a
non-empty buffer is rejected when `argc >= MAX_ARGS - 1` (the function
returns `NULL`), otherwise appended. -/
def flushArg (buf : List Char) (acc : List (List Char)) : Option (List (List Char)) :=
  if buf.isEmpty then some acc
  else if MAX_ARGS - 1 ≤ acc.length then none
  else some (acc ++ [buf])

/-- Emitting an operator token (`src/main.c` lines 211-381): the pending
word is flushed first, then the operator itself is stored, each store
guarded by the `MAX_ARGS - 1` check. -/
def emitOp (buf : List Char) (acc : List (List Char)) (op : List Char) :
    Option (List (List Char)) :=
  match flushArg buf acc with
  | none => none
  | some acc1 => if MAX_ARGS - 1 ≤ acc1.length then none else some (acc1 ++ [op])

/-- End of the scanning loop (`src/main.c` lines 421-449): the remaining
buffer is flushed, then an open single or double quote makes the whole
parse fail (unterminated quote, `NULL` in C). -/
def finishArgs (sq dq : Bool) (buf : List Char) (acc : List (List Char)) :
    Option (List (List Char)) :=
  match flushArg buf acc with
  | none => none
  | some acc1 => if sq || dq then none else some acc1

/-- The scanning loop of `parse_arguments` (`src/main.c` lines 134-419).
State: `sq`/`dq` are the `in_single_quote`/`in_double_quote` flags, `buf`
the current-argument buffer, `acc` the tokens emitted so far.  The C code
walks an index `i` over the NUL-terminated line; here the remaining
characters are a list.  A trailing backslash appends a literal backslash
and ends the scan (in C the index steps past the terminator and the loop
exits).  The whitespace case flushes and moves on; the C code's
"skip subsequent whitespace" run is the repeated empty-buffer whitespace
step and is left to the next iterations.

The `fuel` counter is an artifact of the embedding standing for the
iterations of the C `while` loop: every iteration consumes at least one
character, so any fuel above the length of the remaining input makes the
exhaustion case (`0`, returning `none`) unreachable, and
`parse_arguments` below supplies such a fuel. -/
def parseLoop : Nat → Bool → Bool → List Char → List (List Char) → List Char →
    Option (List (List Char))
  | 0, _, _, _, _, _ => none
  | fuel + 1, sq, dq, buf, acc, cs0 =>
    match cs0 with
    | [] => finishArgs sq dq buf acc
    | c :: cs =>
    if sq then
      -- src/main.c lines 137-147
      if c = squote then parseLoop fuel false dq buf acc cs
      else parseLoop fuel sq dq (buf ++ [c]) acc cs
    else if dq then
      -- src/main.c lines 148-182
      if c = '"' then parseLoop fuel sq false buf acc cs
      else if c = '\\' then
        match cs with
        | [] => finishArgs sq dq (buf ++ ['\\']) acc
        | c2 :: cs2 =>
          if c2 = '"' ∨ c2 = '\\' ∨ c2 = '$' ∨ c2 = btick then
            parseLoop fuel sq dq (buf ++ [c2]) acc cs2
          else
            parseLoop fuel sq dq (buf ++ ['\\', c2]) acc cs2
      else parseLoop fuel sq dq (buf ++ [c]) acc cs
    else
      -- src/main.c lines 183-418
      if c = '\\' then
        match cs with
        | [] => finishArgs sq dq (buf ++ ['\\']) acc
        | c2 :: cs2 => parseLoop fuel sq dq (buf ++ [c2]) acc cs2
      else if c = squote then parseLoop fuel true dq buf acc cs
      else if c = '"' then parseLoop fuel sq true buf acc cs
      -- the operator tests of the C else-if chain are mutually
      -- exclusive on the current character, so they are dispatched on
      -- `c` first and on the following characters second: a digit
      -- followed by `>>` or `>` is the compound operator (the digit's
      -- regular-character case otherwise), `>` followed by `>` is the
      -- append operator, and so on
      else if c = '1' ∨ c = '2' then
        match cs with
        | '>' :: '>' :: cs2 =>
          match emitOp buf acc [c, '>', '>'] with
          | none => none
          | some acc1 => parseLoop fuel sq dq [] acc1 cs2
        | '>' :: cs2 =>
          match emitOp buf acc [c, '>'] with
          | none => none
          | some acc1 => parseLoop fuel sq dq [] acc1 cs2
        | rest => parseLoop fuel sq dq (buf ++ [c]) acc rest
      else if c = '>' then
        match cs with
        | '>' :: cs2 =>
          match emitOp buf acc ['>', '>'] with
          | none => none
          | some acc1 => parseLoop fuel sq dq [] acc1 cs2
        | rest =>
          match emitOp buf acc ['>'] with
          | none => none
          | some acc1 => parseLoop fuel sq dq [] acc1 rest
      else if c = '<' then
        match emitOp buf acc ['<'] with
        | none => none
        | some acc1 => parseLoop fuel sq dq [] acc1 cs
      else if c = '|' then
        match emitOp buf acc ['|'] with
        | none => none
        | some acc1 => parseLoop fuel sq dq [] acc1 cs
      else if shellIsSpace c then
        match flushArg buf acc with
        | none => none
        | some acc1 => parseLoop fuel sq dq [] acc1 cs
      else parseLoop fuel sq dq (buf ++ [c]) acc cs

/-- `parse_arguments` (`src/main.c` lines 112-450): skip leading
whitespace, then run the scanning loop with both quote flags clear,
empty buffer and no tokens.  `none` models the C `NULL` return
(unterminated quote or too many arguments). -/
def parse_arguments (s : List Char) : Option (List (List Char)) :=
  parseLoop ((s.dropWhile shellIsSpace).length + 1) false false [] []
    (s.dropWhile shellIsSpace)

/-! ### Command assembler: redirection extraction

The C code stores tokens as plain strings and the assembler recognizes
redirection operators by string comparison (`strcmp`). -/

/-- Tokens compared equal to `">"` or `"1>"` (`src/main.c` line 509). -/
def isStdoutTrunc (t : List Char) : Bool := t = ['>'] || t = ['1', '>']

/-- Tokens compared equal to `">>"` or `"1>>"` (`src/main.c` line 519). -/
def isStdoutAppend (t : List Char) : Bool := t = ['>', '>'] || t = ['1', '>', '>']

/-- Tokens compared equal to `"2>"` (`src/main.c` line 529). -/
def isStderrTrunc (t : List Char) : Bool := t = ['2', '>']

/-- Tokens compared equal to `"2>>"` (`src/main.c` line 539). -/
def isStderrAppend (t : List Char) : Bool := t = ['2', '>', '>']

/-- Any token recognized as a stdout redirection operator. -/
def isStdoutOp (t : List Char) : Bool := isStdoutTrunc t || isStdoutAppend t

/-- Any token recognized as a stderr redirection operator. -/
def isStderrOp (t : List Char) : Bool := isStderrTrunc t || isStderrAppend t

/-- The strings `parse_arguments` emits as standalone operator tokens. -/
def isOperatorTok (t : List Char) : Bool :=
  t = ['|'] || t = ['<'] || t = ['>'] || t = ['>', '>'] ||
  t = ['1', '>'] || t = ['1', '>', '>'] || t = ['2', '>'] || t = ['2', '>', '>']

/-- Scan state of the redirection-detection loops: `idx` is the loop
index `i`, `so`/`se` the recorded `(index, append-mode)` for the stdout
and stderr operators (`-1`, i.e. `none`, when not seen yet). -/
structure ScanState where
  idx : Nat
  so : Option (Nat × Bool)
  se : Option (Nat × Bool)
deriving DecidableEq

/-- One iteration of the detection loop of
`parse_args_with_redirection` (`src/main.c` lines 507-550): the first
matching operator of a stream records its index and mode; a second
operator for the same stream is the multiple-redirections syntax error
(`NULL`, modelled `none`). -/
def scanStep (t : List Char) (st : ScanState) : Option ScanState :=
  if isStdoutTrunc t then
    match st.so with
    | some _ => none
    | none => some ⟨st.idx + 1, some (st.idx, false), st.se⟩
  else if isStdoutAppend t then
    match st.so with
    | some _ => none
    | none => some ⟨st.idx + 1, some (st.idx, true), st.se⟩
  else if isStderrTrunc t then
    match st.se with
    | some _ => none
    | none => some ⟨st.idx + 1, st.so, some (st.idx, false)⟩
  else if isStderrAppend t then
    match st.se with
    | some _ => none
    | none => some ⟨st.idx + 1, st.so, some (st.idx, true)⟩
  else some ⟨st.idx + 1, st.so, st.se⟩

/-- The detection loop of `parse_args_with_redirection` over the whole
token array: the loop aborts with the syntax error as soon as one
iteration reports it. -/
def scanRedirs : List (List Char) → ScanState → Option ScanState
  | [], st => some st
  | t :: ts, st =>
    match scanStep t st with
    | none => none
    | some st2 => scanRedirs ts st2

/-- Target extraction (`src/main.c` lines 552-588): a recorded operator
requires some token right after it (else the missing-filename syntax
error, outer `none`); that token, whatever it is, becomes the file with
the recorded mode. -/
def extractTarget (toks : List (List Char)) (slot : Option (Nat × Bool)) :
    Option (Option (List Char × Bool)) :=
  match slot with
  | none => some none
  | some (k, m) =>
    match toks[k + 1]? with
    | none => none
    | some f => some (some (f, m))

/-- The argv rebuild loop (`src/main.c` lines 599-618): walking the
token array by index, an index equal to a recorded operator index is
skipped together with the next index; every other token is kept.  The C
loop implements the double skip by an extra `i++`; here the `skip` flag
carries the pending extra skip to the next step, which is the same
walk. -/
def dropRedirPairs (so se : Option Nat) : Nat → Bool → List (List Char) →
    List (List Char)
  | _, _, [] => []
  | i, skip, t :: ts =>
    if skip then dropRedirPairs so se (i + 1) false ts
    else if so = some i ∨ se = some i then dropRedirPairs so se (i + 1) true ts
    else t :: dropRedirPairs so se (i + 1) false ts

/-- Redirection record of a stage (`RedirectionInfo` in C):
`(file, append?)` per stream, `none` when absent. -/
structure RedirInfo where
  stdoutFile : Option (List Char × Bool)
  stderrFile : Option (List Char × Bool)
deriving DecidableEq

/-- `ParseResult` of the single-command path: the command argv and the
redirection record. -/
structure ParseResultS where
  argv : List (List Char)
  redir : RedirInfo
deriving DecidableEq

/-- `parse_args_with_redirection` on an already-tokenized line
(`src/main.c` lines 499-623): detection scan, stdout target, stderr
target, then the rebuilt argv.  Any syntax error gives `none` (the C
`NULL`), after which `main` discards the line. -/
def parse_args_with_redirection_toks (toks : List (List Char)) : Option ParseResultS :=
  match scanRedirs toks ⟨0, none, none⟩ with
  | none => none
  | some st =>
    match extractTarget toks st.so with
    | none => none
    | some soFile =>
      match extractTarget toks st.se with
      | none => none
      | some seFile =>
        some ⟨dropRedirPairs (st.so.map Prod.fst) (st.se.map Prod.fst) 0 false toks,
              ⟨soFile, seFile⟩⟩

/-- `parse_args_with_redirection` (`src/main.c` lines 479-624) composed
with the tokenizer it calls on the raw line. -/
def parse_args_with_redirection (s : List Char) : Option ParseResultS :=
  match parse_arguments s with
  | none => none
  | some toks => parse_args_with_redirection_toks toks

/-! ### Command assembler: pipeline path -/

/-- `split_tokens_by_pipe` (`src/main.c` lines 1026-1058): split the
token array on `"|"` tokens; adjacent/leading/trailing pipes produce
empty segments. -/
def split_tokens_by_pipe : List (List Char) → List (List (List Char))
  | [] => [[]]
  | t :: ts =>
    if t = ['|'] then [] :: split_tokens_by_pipe ts
    else
      match split_tokens_by_pipe ts with
      | [] => [[t]]
      | s :: rest => (t :: s) :: rest

/-- The pipe detection in `main` (`src/main.c` lines 1220-1226). -/
def has_pipe (toks : List (List Char)) : Bool := toks.any (fun t => t = ['|'])

/-- One iteration of the per-segment detection loop of the pipeline
path (`src/main.c` lines 1246-1260): unlike the single-command path it
never fails; a later same-stream operator simply overwrites the recorded
index and mode. -/
def pipelineScanStep (t : List Char) (st : ScanState) : ScanState :=
  if isStdoutTrunc t then ⟨st.idx + 1, some (st.idx, false), st.se⟩
  else if isStdoutAppend t then ⟨st.idx + 1, some (st.idx, true), st.se⟩
  else if isStderrTrunc t then ⟨st.idx + 1, st.so, some (st.idx, false)⟩
  else if isStderrAppend t then ⟨st.idx + 1, st.so, some (st.idx, true)⟩
  else ⟨st.idx + 1, st.so, st.se⟩

/-- The per-segment detection loop of the pipeline path over the whole
segment. -/
def pipelineScanRedirs : List (List Char) → ScanState → ScanState
  | [], st => st
  | t :: ts, st => pipelineScanRedirs ts (pipelineScanStep t st)

/-- One stage as the pipeline path builds it.  `words` is what the
NUL-terminated `argv` array presents to the executed command;
`errorReported` records that a syntax-error message was printed (the
pipeline is still executed afterwards). -/
structure PipelineStage where
  words : List (List Char)
  redir : RedirInfo
  errorReported : Bool
deriving DecidableEq

/-- Reading a C argv array whose cells may have been overwritten with
`NULL`: the consumer sees the prefix before the first `NULL`. -/
def cellsToWords : List (Option (List Char)) → List (List Char)
  | [] => []
  | none :: _ => []
  | some t :: rest => t :: cellsToWords rest

/-- The stderr half of the per-segment redirection setup (`src/main.c`
lines 1276-1286), given the argv cells and stdout record produced so
far.  A missing filename prints a message and leaves the segment as it
is (the `continue` goes to the next segment). -/
def pipelineStageStderr (toks : List (List Char)) (se : Option (Nat × Bool))
    (cells : List (Option (List Char))) (soFile : Option (List Char × Bool)) :
    PipelineStage :=
  match se with
  | none => ⟨cellsToWords cells, ⟨soFile, none⟩, false⟩
  | some (k, m) =>
    match toks[k + 1]? with
    | none => ⟨cellsToWords cells, ⟨soFile, none⟩, true⟩
    | some f => ⟨cellsToWords (cells.set k none), ⟨soFile, some (f, m)⟩, false⟩

/-- Building one pipeline stage from its token segment (`src/main.c`
lines 1234-1286): overwrite-scan, then the stdout record (writing `NULL`
over the operator cell truncates the visible argv there), then the
stderr record.  A missing stdout filename prints a message and abandons
the rest of the setup for this segment (`continue`). -/
def build_pipeline_stage (toks : List (List Char)) : PipelineStage :=
  let st := pipelineScanRedirs toks ⟨0, none, none⟩
  let cells0 := toks.map some
  match st.so with
  | none => pipelineStageStderr toks st.se cells0 none
  | some (k, m) =>
    match toks[k + 1]? with
    | none => ⟨cellsToWords cells0, ⟨none, none⟩, true⟩
    | some f => pipelineStageStderr toks st.se (cells0.set k none) (some (f, m))

/-- The whole pipeline branch of `main` (`src/main.c` lines 1228-1290):
split on pipes and build each stage; no stage setup aborts the line, and
`execute_pipeline` runs afterwards in every case. -/
def assemble_pipeline (toks : List (List Char)) : List PipelineStage :=
  (split_tokens_by_pipe toks).map build_pipeline_stage

/-! ### Executor: pipeline exit status flow

Each forked child is summarized by the exit status it would report; the
model tracks what each `waitpid` call stores and what the function
returns to `main`. -/

/-- What one `waitpid(pid, ptr, 0)` call stores through `ptr`: the
child's exit status if a pointer is supplied, nothing for `NULL`. -/
def waitpid_stored (childExit : Int) (statusPtrProvided : Bool) : Option Int :=
  if statusPtrProvided then some childExit else none

/-- Observable status flow of `execute_pipeline`. -/
structure ExecutePipelineResult where
  waitsStored : List (Option Int)
  returned : Option Int
deriving DecidableEq

/-- `execute_pipeline` (`src/main.c` lines 1061-1176): the wait loop at
lines 1171-1173 calls `waitpid(pids[i], NULL, 0)` for every stage, so no
status is stored anywhere, and the function returns `void` (`none`). -/
def execute_pipeline (stageExits : List Int) : ExecutePipelineResult :=
  { waitsStored := stageExits.map (fun st => waitpid_stored st false),
    returned := none }

/-- The shell's `status` variable after the pipeline branch of `main`
(`src/main.c` lines 1228-1300): `execute_pipeline` is called and its
(nonexistent) result is never assigned to `status`, which only the
`exit` built-in ever sets. -/
def shell_status_after_pipeline (status : Int) (stageExits : List Int) : Int :=
  let _ := execute_pipeline stageExits
  status

/-! ### Executor: built-in redirection setup in the shell process -/

/-- `setup_stdout_redirection`/`setup_stderr_redirection` (`src/main.c`
lines 855-916): `open`, `dup` of the current descriptor, `dup2`; any
failure yields `-1` (`none`), success the saved descriptor. -/
def setup_redirection (openOk dupOk dup2Ok : Bool) : Option Unit :=
  if openOk then (if dupOk then (if dup2Ok then some () else none) else none) else none

/-- Observable outcome of running a built-in with redirections in the
shell process. -/
structure BuiltinExecTrace where
  builtinRan : Bool
  stdoutRestored : Bool
  stderrRestored : Bool
deriving DecidableEq

/-- The built-in branch of `main` (`src/main.c` lines 1327-1355): the
two setups run (each summarized by whether it succeeds), then the
built-in is invoked with no check of either saved descriptor, then each
stream is restored only when its saved descriptor is not `-1`. -/
def run_builtin_line (hasOut hasErr setupOutOk setupErrOk : Bool) : BuiltinExecTrace :=
  let savedOut : Option Unit := if hasOut then (if setupOutOk then some () else none) else none
  let savedErr : Option Unit := if hasErr then (if setupErrOk then some () else none) else none
  { builtinRan := true,
    stdoutRestored := savedOut.isSome,
    stderrRestored := savedErr.isSome }

/-- The same branch in the preceding revision of the file
(`src/unnamed/part_000` lines 907-928): a failed stdout setup skips the
built-in; a failed stderr setup restores the already-redirected stdout
and skips the built-in. -/
def run_builtin_line_rev1 (hasOut hasErr setupOutOk setupErrOk : Bool) : BuiltinExecTrace :=
  if hasOut && !setupOutOk then
    { builtinRan := false, stdoutRestored := false, stderrRestored := false }
  else if hasErr && !setupErrOk then
    { builtinRan := false, stdoutRestored := hasOut, stderrRestored := false }
  else
    { builtinRan := true, stdoutRestored := hasOut, stderrRestored := hasErr }

/-! ### REPL output routing and the cd built-in -/

/-- The stream an output call writes to: `printf` writes to `stdout`,
`fprintf(stderr, ...)` and `perror` to `stderr`. -/
inductive StreamId where
  | stdout
  | stderr
deriving DecidableEq

/-- One message written by the shell process. -/
structure OutEvent where
  stream : StreamId
  text : List Char
deriving DecidableEq

/-- The external-command branch of `main` (`src/main.c` lines
1356-1363), given the result of `find_exe_in_path`: on `NULL` it calls
`printf("%s: command not found\n", command)` — standard output — and the
loop continues (second component `true`). -/
def run_external_branch (cmd : List Char) (exePath : Option (List Char)) :
    List OutEvent × Bool :=
  match exePath with
  | some _ => ([], true)
  | none => ([⟨StreamId.stdout, cmd ++ (": command not found\n").toList⟩], true)

/-- `PATH_MAX` from limits.h on Linux, the size of the `expanded_path`
buffer in `handle_cd_cmd`. -/
def PATH_MAX : Nat := 4096

/-- Target-path computation of `handle_cd_cmd` (`src/main.c` lines
732-754).  `arg` is `argv[1]` (`none` when absent), `home` the value of
`getenv("HOME")`.  A `NULL`, empty or `"~"` argument targets `HOME`
directly; an argument starting with `~` targets
`snprintf("%s%s", home, path+1)`, which the `PATH_MAX` buffer truncates
to its first `PATH_MAX - 1` characters; anything else is literal.
`none` means `HOME` was required but unset (error, no `chdir`). -/
def cd_target (home : Option (List Char)) (arg : Option (List Char)) :
    Option (List Char) :=
  match arg with
  | none => home
  | some p =>
    if p = [] then home
    else
      match p with
      | '~' :: rest =>
        if rest = [] then home
        else home.map (fun h => (h ++ rest).take (PATH_MAX - 1))
      | _ => some p

/-- `handle_cd_cmd` (`src/main.c` lines 732-759): compute the target;
`HOME` unset prints on stderr via `fprintf`; a failing `chdir` prints
`"cd: <path>: No such file or directory"` via `printf` — standard
output.  `chdirOk` summarizes whether `chdir` succeeds on a path. -/
def handle_cd_cmd (home : Option (List Char)) (arg : Option (List Char))
    (chdirOk : List Char → Bool) : List OutEvent :=
  match cd_target home arg with
  | none => [⟨StreamId.stderr, ("cd: HOME environment variable not set\n").toList⟩]
  | some t =>
    if chdirOk t then []
    else [⟨StreamId.stdout, ("cd: ").toList ++ t ++ (": No such file or directory\n").toList⟩]

/-! ### Whitespace splitting (the specification's reference function) -/

/-- Plain whitespace-splitting of a line, as the specification describes
it: runs of whitespace are single boundaries, leading/trailing
whitespace produces no empty words.  `buf` is the word prefix collected
so far. -/
def wsTokens (buf : List Char) : List Char → List (List Char)
  | [] => if buf.isEmpty then [] else [buf]
  | c :: cs =>
    if shellIsSpace c then
      (if buf.isEmpty then [] else [buf]) ++ wsTokens [] cs
    else wsTokens (buf ++ [c]) cs

/-- The whitespace-splitting of a whole line. -/
def wsSplit (s : List Char) : List (List Char) := wsTokens [] s

/-- The characters that are special to the unquoted tokenizer state:
quote openers, the backslash escape, and the operator characters (a
digit is only special through a following `>`). -/
def isSpecialChar (c : Char) : Bool :=
  c = squote || c = '"' || c = '\\' || c = '>' || c = '<' || c = '|'

end Shell

namespace Shell

/-! ### Theorems -/

/-- Helper: the `~rest` branch of `cd_target` with nonempty `rest`. -/
theorem cd_target_tilde (h rest : List Char) (hne : rest ≠ []) :
    cd_target (some h) (some ('~' :: rest)) = some ((h ++ rest).take (PATH_MAX - 1)) := by
  simp [cd_target, hne]

/-- Claim C1 counterexample: with previous shell status `0` and a
two-stage pipeline whose stages exit `0` and `7`, the status the shell
holds after the line is `0`, not the last stage's `7`. -/
theorem c1_counterexample :
    shell_status_after_pipeline 0 [0, 7] = 0 ∧
    [(0 : Int), 7].getLast? = some 7 ∧ (0 : Int) ≠ 7 := by
  decide

/-- Claim C1 (amended): `execute_pipeline` waits for every stage with a
`NULL` status pointer and returns nothing, so the shell's status after a
pipeline line equals its previous status for every combination of stage
exit statuses — it is never the last stage's status unless by
coincidence. -/
theorem c1_pipeline_status_discarded (status : Int) (stageExits : List Int) :
    shell_status_after_pipeline status stageExits = status ∧
    (execute_pipeline stageExits).returned = none ∧
    (execute_pipeline stageExits).waitsStored = stageExits.map (fun _ => none) := by
  refine ⟨rfl, rfl, ?_⟩
  simp [execute_pipeline, waitpid_stored]

/-- Claim C2: inside an open double quote, a backslash followed by one
of `"`, `\`, `$`, backtick drops the backslash and appends that
character; a backslash followed by any other character appends both the
backslash and the character, with no C-style escape interpretation. -/
theorem c2_double_quote_backslash (fuel : Nat) (buf : List Char)
    (acc : List (List Char)) (c : Char) (cs : List Char) :
    parseLoop (fuel + 1) false true buf acc ('\\' :: c :: cs) =
      (if c = '"' ∨ c = '\\' ∨ c = '$' ∨ c = btick then
        parseLoop fuel false true (buf ++ [c]) acc cs
      else
        parseLoop fuel false true (buf ++ ['\\', c]) acc cs) := by
  rfl

/-- Helper: an unquoted whitespace character flushes the pending word
and continues. -/
theorem parseLoop_space_step (fuel : Nat) (c : Char) (cs buf : List Char)
    (acc : List (List Char)) (hsp : shellIsSpace c = true) :
    parseLoop (fuel + 1) false false buf acc (c :: cs) =
      match flushArg buf acc with
      | none => none
      | some acc1 => parseLoop fuel false false [] acc1 cs := by
  simp only [shellIsSpace, Bool.or_eq_true, decide_eq_true_eq] at hsp
  rcases hsp with ((((h|h)|h)|h)|h)|h <;> subst h <;> rfl

/-- Helper: an unquoted character that is not special and not
whitespace, and is not a digit followed by `>`, is appended to the
pending word. -/
theorem parseLoop_plain_step (fuel : Nat) (c : Char) (cs buf : List Char)
    (acc : List (List Char)) (hc : isSpecialChar c = false)
    (hsp : shellIsSpace c = false)
    (hhd : ∀ cs2, cs ≠ '>' :: cs2) :
    parseLoop (fuel + 1) false false buf acc (c :: cs) =
      parseLoop fuel false false (buf ++ [c]) acc cs := by
  simp only [isSpecialChar, Bool.or_eq_false_iff, decide_eq_false_iff_not] at hc
  obtain ⟨⟨⟨⟨⟨h1, h2⟩, h3⟩, h4⟩, h5⟩, h6⟩ := hc
  show (if c = '\\' then _ else _) = _
  rw [if_neg h3, if_neg h1, if_neg h2]
  by_cases hd : c = '1' ∨ c = '2'
  · rw [if_pos hd]
    cases cs with
    | nil => rfl
    | cons c2 cs2 =>
      have hne : c2 ≠ '>' := fun h => hhd cs2 (by rw [h])
      split
      · rename_i heq; exact absurd (List.cons.injEq .. ▸ congrArg id heq) (by simp [hne])
      · rename_i heq; exact absurd heq (by simp [hne])
      · rfl
  · rw [if_neg hd, if_neg h4, if_neg h5, if_neg h6, if_neg (by simp [hsp])]

/-- Helper: on input without special characters, the scanning loop
computes the whitespace splitting appended to the tokens already
emitted, provided the `MAX_ARGS` budget is not exhausted; otherwise it
fails. -/
theorem parseLoop_clean (cs : List Char) : ∀ (fuel : Nat) (buf : List Char)
    (acc : List (List Char)), cs.length < fuel →
    (∀ x ∈ cs, isSpecialChar x = false) → acc.length ≤ MAX_ARGS - 1 →
    parseLoop fuel false false buf acc cs =
      if acc.length + (wsTokens buf cs).length ≤ MAX_ARGS - 1 then
        some (acc ++ wsTokens buf cs)
      else none := by
  induction cs with
  | nil =>
    intro fuel buf acc hf _ hacc
    have hMA : MAX_ARGS = 64 := rfl
    match fuel, hf with
    | fuel + 1, _ =>
      cases buf with
      | nil =>
        show finishArgs false false [] acc = _
        rw [show wsTokens [] [] = [] from rfl, if_pos (by simp; omega)]
        simp [finishArgs, flushArg]
      | cons b bs =>
        show finishArgs false false (b :: bs) acc = _
        rw [show wsTokens (b :: bs) [] = [b :: bs] from rfl]
        by_cases hlim : MAX_ARGS - 1 ≤ acc.length
        · rw [if_neg (by simp; omega)]
          simp [finishArgs, flushArg, hlim]
        · rw [if_pos (by simp; omega)]
          simp [finishArgs, flushArg, hlim]
  | cons c cs ih =>
    intro fuel buf acc hf hclean hacc
    have hMA : MAX_ARGS = 64 := rfl
    have hc : isSpecialChar c = false := hclean c (List.mem_cons_self c cs)
    have hcs : ∀ x ∈ cs, isSpecialChar x = false :=
      fun x hx => hclean x (List.mem_cons_of_mem c hx)
    match fuel, hf with
    | fuel + 1, hf =>
      have hlt : cs.length < fuel := by
        simp only [List.length_cons] at hf; omega
      by_cases hsp : shellIsSpace c
      · rw [parseLoop_space_step fuel c cs buf acc hsp]
        cases buf with
        | nil =>
          rw [show flushArg [] acc = some acc from rfl]
          show parseLoop fuel false false [] acc cs = _
          rw [ih fuel [] acc hlt hcs hacc]
          rw [show wsTokens [] (c :: cs) = wsTokens [] cs by simp [wsTokens, hsp]]
        | cons b bs =>
          have hw : wsTokens (b :: bs) (c :: cs) = (b :: bs) :: wsTokens [] cs := by
            simp [wsTokens, hsp]
          rw [hw]
          by_cases hlim : MAX_ARGS - 1 ≤ acc.length
          · rw [show flushArg (b :: bs) acc = none by simp [flushArg, hlim]]
            rw [if_neg (by simp; omega)]
          · rw [show flushArg (b :: bs) acc = some (acc ++ [b :: bs]) by
              simp [flushArg, hlim]]
            show parseLoop fuel false false [] (acc ++ [b :: bs]) cs = _
            rw [ih fuel [] (acc ++ [b :: bs]) hlt hcs (by simp; omega)]
            by_cases h63 : acc.length + 1 + (wsTokens [] cs).length ≤ MAX_ARGS - 1
            · rw [if_pos (by simp; omega), if_pos (by simp; omega)]
              simp
            · rw [if_neg (by simp; omega), if_neg (by simp; omega)]
      · have hsp2 : shellIsSpace c = false := by simpa using hsp
        have hhd : ∀ cs2, cs ≠ '>' :: cs2 := by
          intro cs2 h
          have h2 : isSpecialChar '>' = false :=
            hcs '>' (by rw [h]; exact List.mem_cons_self _ _)
          simp [isSpecialChar] at h2
        rw [parseLoop_plain_step fuel c cs buf acc hc hsp2 hhd]
        rw [ih fuel (buf ++ [c]) acc hlt hcs hacc]
        rw [show wsTokens buf (c :: cs) = wsTokens (buf ++ [c]) cs by
          simp [wsTokens, hsp2]]

/-- Helper: skipping leading whitespace does not change the whitespace
splitting. -/
theorem wsTokens_dropWhile (s : List Char) :
    wsTokens [] (s.dropWhile shellIsSpace) = wsTokens [] s := by
  induction s with
  | nil => rfl
  | cons c cs ih =>
    by_cases hsp : shellIsSpace c
    · rw [List.dropWhile_cons_of_pos hsp, ih]
      simp [wsTokens, hsp]
    · rw [List.dropWhile_cons_of_neg (by simp [hsp])]

set_option maxRecDepth 6000 in
/-- Claim C3 counterexample: a line of 64 one-letter words separated by
single spaces contains no quote, backslash or operator character, has
whitespace splitting of length 64, yet the tokenizer fails (the
`MAX_ARGS - 1 = 63` token limit), rather than succeeding as the claim
states. -/
theorem c3_counterexample :
    parse_arguments (List.intercalate [' '] (List.replicate 64 ['a'])) = none ∧
    (List.intercalate [' '] (List.replicate 64 ['a'])).all
      (fun c => !(isSpecialChar c)) = true ∧
    (wsSplit (List.intercalate [' '] (List.replicate 64 ['a']))).length = 64 := by
  decide

/-- Claim C3 (amended): for every line without quote characters,
backslashes or operator characters whose whitespace splitting has at
most `MAX_ARGS - 1 = 63` words, the tokenizer succeeds and returns
exactly that whitespace splitting; lines with more words fail with the
token-limit error. -/
theorem c3_whitespace_split (s : List Char)
    (hclean : ∀ x ∈ s, isSpecialChar x = false)
    (hlen : (wsSplit s).length ≤ MAX_ARGS - 1) :
    parse_arguments s = some (wsSplit s) := by
  unfold parse_arguments
  have hsub : ∀ x ∈ s.dropWhile shellIsSpace, isSpecialChar x = false :=
    fun x hx => hclean x ((List.dropWhile_suffix shellIsSpace).subset hx)
  rw [parseLoop_clean (s.dropWhile shellIsSpace) _ [] [] (by omega) hsub (by simp)]
  rw [show wsTokens [] (s.dropWhile shellIsSpace) = wsSplit s from wsTokens_dropWhile s]
  simp only [List.length_nil, Nat.zero_add, List.nil_append]
  rw [if_pos hlen]

/-- Claim C3 witness: a concrete clean line. -/
theorem c3_whitespace_split_witness :
    parse_arguments ("ls -l  tmp".toList) = some (wsSplit ("ls -l  tmp".toList)) :=
  c3_whitespace_split ("ls -l  tmp".toList) (by decide) (by decide)

/-- Helper: the append operators are not the truncate operators. -/
theorem stdout_append_not_trunc (t : List Char) (h : isStdoutAppend t = true) :
    isStdoutTrunc t = false := by
  simp only [isStdoutAppend, Bool.or_eq_true, decide_eq_true_eq] at h
  rcases h with h | h <;> subst h <;> decide

/-- Helper: the truncate operators are not the append operators. -/
theorem stdout_trunc_not_append (t : List Char) (h : isStdoutTrunc t = true) :
    isStdoutAppend t = false := by
  simp only [isStdoutTrunc, Bool.or_eq_true, decide_eq_true_eq] at h
  rcases h with h | h <;> subst h <;> decide

/-- Helper: a stderr operator is no stdout operator. -/
theorem stderr_not_stdout (t : List Char) (h : isStderrOp t = true) :
    isStdoutTrunc t = false ∧ isStdoutAppend t = false := by
  simp only [isStderrOp, isStderrTrunc, isStderrAppend, Bool.or_eq_true,
    decide_eq_true_eq] at h
  rcases h with h | h <;> subst h <;> exact ⟨by decide, by decide⟩

/-- Helper: the stderr append operator is not the stderr truncate
operator. -/
theorem stderr_append_not_trunc (t : List Char) (h : isStderrAppend t = true) :
    isStderrTrunc t = false := by
  simp only [isStderrAppend, decide_eq_true_eq] at h
  subst h; decide

/-- Helper: the stderr truncate operator is not the stderr append
operator. -/
theorem stderr_trunc_not_append (t : List Char) (h : isStderrTrunc t = true) :
    isStderrAppend t = false := by
  simp only [isStderrTrunc, decide_eq_true_eq] at h
  subst h; decide

/-- Helper: a successful scan step keeps a recorded stdout slot. -/
theorem scanStep_so_some (t : List Char) (st st2 : ScanState) (p : Nat × Bool)
    (hso : st.so = some p) (h : scanStep t st = some st2) : st2.so = some p := by
  unfold scanStep at h
  split_ifs at h
  · rw [hso] at h; exact absurd h (by simp)
  · rw [hso] at h; exact absurd h (by simp)
  · cases hse : st.se with
    | some q => rw [hse] at h; exact absurd h (by simp)
    | none =>
      rw [hse] at h
      simp only [Option.some.injEq] at h
      subst h; exact hso
  · cases hse : st.se with
    | some q => rw [hse] at h; exact absurd h (by simp)
    | none =>
      rw [hse] at h
      simp only [Option.some.injEq] at h
      subst h; exact hso
  · simp only [Option.some.injEq] at h
    subst h; exact hso

/-- Helper: a successful scan step keeps a recorded stderr slot. -/
theorem scanStep_se_some (t : List Char) (st st2 : ScanState) (p : Nat × Bool)
    (hse : st.se = some p) (h : scanStep t st = some st2) : st2.se = some p := by
  unfold scanStep at h
  split_ifs at h
  · cases hso : st.so with
    | some q => rw [hso] at h; exact absurd h (by simp)
    | none =>
      rw [hso] at h
      simp only [Option.some.injEq] at h
      subst h; exact hse
  · cases hso : st.so with
    | some q => rw [hso] at h; exact absurd h (by simp)
    | none =>
      rw [hso] at h
      simp only [Option.some.injEq] at h
      subst h; exact hse
  · rw [hse] at h; exact absurd h (by simp)
  · rw [hse] at h; exact absurd h (by simp)
  · simp only [Option.some.injEq] at h
    subst h; exact hse

/-- Helper: a stdout operator meeting an occupied stdout slot is the
multiple-redirections error. -/
theorem scanStep_so_blocked (t : List Char) (st : ScanState) (p : Nat × Bool)
    (ht : isStdoutOp t = true) (hso : st.so = some p) : scanStep t st = none := by
  simp only [isStdoutOp, Bool.or_eq_true] at ht
  unfold scanStep
  rcases ht with h | h
  · rw [if_pos h, hso]
  · rw [if_neg (by simp [stdout_append_not_trunc t h]), if_pos h, hso]

/-- Helper: a stderr operator meeting an occupied stderr slot is the
multiple-redirections error. -/
theorem scanStep_se_blocked (t : List Char) (st : ScanState) (p : Nat × Bool)
    (ht : isStderrOp t = true) (hse : st.se = some p) : scanStep t st = none := by
  have hns := stderr_not_stdout t ht
  simp only [isStderrOp, Bool.or_eq_true] at ht
  unfold scanStep
  rw [if_neg (by simp [hns.1]), if_neg (by simp [hns.2])]
  rcases ht with h | h
  · rw [if_pos h, hse]
  · rw [if_neg (by simp [stderr_append_not_trunc t h]), if_pos h, hse]

/-- Helper: a stdout operator meeting a free stdout slot records the
current index and its mode. -/
theorem scanStep_stdout_sets (t : List Char) (st : ScanState)
    (ht : isStdoutOp t = true) (hso : st.so = none) :
    scanStep t st = some ⟨st.idx + 1, some (st.idx, isStdoutAppend t), st.se⟩ := by
  simp only [isStdoutOp, Bool.or_eq_true] at ht
  unfold scanStep
  rcases ht with h | h
  · rw [if_pos h, hso, stdout_trunc_not_append t h]
  · rw [if_neg (by simp [stdout_append_not_trunc t h]), if_pos h, hso, h]

/-- Helper: once a stdout slot is recorded, any later stdout operator
makes the whole detection loop fail. -/
theorem scanRedirs_so_blocked (ts : List (List Char)) (p : Nat × Bool) :
    ∀ st : ScanState, st.so = some p → (∃ x ∈ ts, isStdoutOp x = true) →
    scanRedirs ts st = none := by
  induction ts with
  | nil =>
    intro st _ hex
    rcases hex with ⟨x, hx, _⟩
    simp at hx
  | cons t ts ih =>
    intro st hso hex
    cases hstep : scanStep t st with
    | none => simp [scanRedirs, hstep]
    | some st2 =>
      by_cases ht : isStdoutOp t = true
      · rw [scanStep_so_blocked t st p ht hso] at hstep; cases hstep
      · simp only [scanRedirs, hstep]
        rcases hex with ⟨x, hx, hxop⟩
        rcases List.mem_cons.mp hx with rfl | hx2
        · exact absurd hxop ht
        · exact ih st2 (scanStep_so_some t st st2 p hso hstep) ⟨x, hx2, hxop⟩

/-- Helper: once a stderr slot is recorded, any later stderr operator
makes the whole detection loop fail. -/
theorem scanRedirs_se_blocked (ts : List (List Char)) (p : Nat × Bool) :
    ∀ st : ScanState, st.se = some p → (∃ x ∈ ts, isStderrOp x = true) →
    scanRedirs ts st = none := by
  induction ts with
  | nil =>
    intro st _ hex
    rcases hex with ⟨x, hx, _⟩
    simp at hx
  | cons t ts ih =>
    intro st hse hex
    cases hstep : scanStep t st with
    | none => simp [scanRedirs, hstep]
    | some st2 =>
      by_cases ht : isStderrOp t = true
      · rw [scanStep_se_blocked t st p ht hse] at hstep; cases hstep
      · simp only [scanRedirs, hstep]
        rcases hex with ⟨x, hx, hxop⟩
        rcases List.mem_cons.mp hx with rfl | hx2
        · exact absurd hxop ht
        · exact ih st2 (scanStep_se_some t st st2 p hse hstep) ⟨x, hx2, hxop⟩

/-- Helper: the detection loop over a concatenation runs the two halves
in order. -/
theorem scanRedirs_append (l1 l2 : List (List Char)) :
    ∀ st : ScanState, scanRedirs (l1 ++ l2) st =
      (scanRedirs l1 st).bind (fun st2 => scanRedirs l2 st2) := by
  induction l1 with
  | nil => intro st; simp [scanRedirs]
  | cons t ts ih =>
    intro st
    cases hstep : scanStep t st with
    | none => simp [scanRedirs, hstep]
    | some st2 => simp [scanRedirs, hstep, ih st2]

/-- Helper: a token that is no redirection operator leaves the scan
state unchanged apart from the index. -/
theorem scanStep_no_op (t : List Char) (st : ScanState)
    (h1 : isStdoutOp t = false) (h2 : isStderrOp t = false) :
    scanStep t st = some ⟨st.idx + 1, st.so, st.se⟩ := by
  simp only [isStdoutOp, isStderrOp, Bool.or_eq_false_iff] at h1 h2
  unfold scanStep
  rw [if_neg (by simp [h1.1]), if_neg (by simp [h1.2]), if_neg (by simp [h2.1]),
    if_neg (by simp [h2.2])]

/-- Helper: the detection loop over operator-free tokens only advances
the index. -/
theorem scanRedirs_no_ops (ts : List (List Char)) :
    ∀ st : ScanState, (∀ t ∈ ts, isStdoutOp t = false ∧ isStderrOp t = false) →
    scanRedirs ts st = some ⟨st.idx + ts.length, st.so, st.se⟩ := by
  induction ts with
  | nil => intro st _; simp [scanRedirs]
  | cons t ts ih =>
    intro st h
    have ht := h t (List.mem_cons_self _ _)
    simp only [scanRedirs, scanStep_no_op t st ht.1 ht.2]
    rw [ih _ (fun x hx => h x (List.mem_cons_of_mem _ hx))]
    have harith : st.idx + 1 + ts.length = st.idx + (t :: ts).length := by
      simp only [List.length_cons]; omega
    rw [harith]

/-- Helper: every pipeline scan step advances the index by one. -/
theorem pipelineScanStep_idx (t : List Char) (st : ScanState) :
    (pipelineScanStep t st).idx = st.idx + 1 := by
  unfold pipelineScanStep
  split_ifs <;> rfl

/-- Helper: the pipeline scan of a concatenation runs the halves in
order. -/
theorem pipelineScanRedirs_append (l1 l2 : List (List Char)) :
    ∀ st : ScanState, pipelineScanRedirs (l1 ++ l2) st =
      pipelineScanRedirs l2 (pipelineScanRedirs l1 st) := by
  induction l1 with
  | nil => intro st; rfl
  | cons t ts ih => intro st; simp [pipelineScanRedirs, ih]

/-- Helper: the pipeline scan advances the index by the number of
tokens. -/
theorem pipelineScanRedirs_idx (l : List (List Char)) :
    ∀ st : ScanState, (pipelineScanRedirs l st).idx = st.idx + l.length := by
  induction l with
  | nil => intro st; simp [pipelineScanRedirs]
  | cons t ts ih =>
    intro st
    simp only [pipelineScanRedirs]
    rw [ih, pipelineScanStep_idx]
    simp only [List.length_cons]; omega

/-- Helper: a non-stdout token keeps the pipeline scan's stdout slot. -/
theorem pipelineScanStep_so_no (t : List Char) (st : ScanState)
    (h : isStdoutOp t = false) : (pipelineScanStep t st).so = st.so := by
  simp only [isStdoutOp, Bool.or_eq_false_iff] at h
  unfold pipelineScanStep
  rw [if_neg (by simp [h.1]), if_neg (by simp [h.2])]
  split_ifs <;> rfl

/-- Helper: a non-stderr token keeps the pipeline scan's stderr slot. -/
theorem pipelineScanStep_se_no (t : List Char) (st : ScanState)
    (h : isStderrOp t = false) : (pipelineScanStep t st).se = st.se := by
  simp only [isStderrOp, Bool.or_eq_false_iff] at h
  unfold pipelineScanStep
  split_ifs with h1 h2 h3 h4
  · rfl
  · rfl
  · exact absurd h3 (by simp [h.1])
  · exact absurd h4 (by simp [h.2])
  · rfl

/-- Helper: stdout-operator-free tokens keep the pipeline scan's stdout
slot. -/
theorem pipelineScanRedirs_so_no (l : List (List Char)) :
    ∀ st : ScanState, (∀ t ∈ l, isStdoutOp t = false) →
    (pipelineScanRedirs l st).so = st.so := by
  induction l with
  | nil => intro st _; rfl
  | cons t ts ih =>
    intro st h
    simp only [pipelineScanRedirs]
    rw [ih _ (fun x hx => h x (List.mem_cons_of_mem _ hx)),
      pipelineScanStep_so_no t st (h t (List.mem_cons_self _ _))]

/-- Helper: stderr-operator-free tokens keep the pipeline scan's stderr
slot. -/
theorem pipelineScanRedirs_se_no (l : List (List Char)) :
    ∀ st : ScanState, (∀ t ∈ l, isStderrOp t = false) →
    (pipelineScanRedirs l st).se = st.se := by
  induction l with
  | nil => intro st _; rfl
  | cons t ts ih =>
    intro st h
    simp only [pipelineScanRedirs]
    rw [ih _ (fun x hx => h x (List.mem_cons_of_mem _ hx)),
      pipelineScanStep_se_no t st (h t (List.mem_cons_self _ _))]

/-- Helper: a stdout operator overwrites the pipeline scan's stdout slot
with the current index and its mode. -/
theorem pipelineScanStep_stdout (t : List Char) (st : ScanState)
    (ht : isStdoutOp t = true) :
    pipelineScanStep t st = ⟨st.idx + 1, some (st.idx, isStdoutAppend t), st.se⟩ := by
  simp only [isStdoutOp, Bool.or_eq_true] at ht
  unfold pipelineScanStep
  rcases ht with h | h
  · rw [if_pos h, stdout_trunc_not_append t h]
  · rw [if_neg (by simp [stdout_append_not_trunc t h]), if_pos h, h]

/-- Helper: a stderr operator meeting a free stderr slot records the
current index and its mode. -/
theorem scanStep_stderr_sets (t : List Char) (st : ScanState)
    (ht : isStderrOp t = true) (hse : st.se = none) :
    scanStep t st = some ⟨st.idx + 1, st.so, some (st.idx, isStderrAppend t)⟩ := by
  have hns := stderr_not_stdout t ht
  simp only [isStderrOp, Bool.or_eq_true] at ht
  unfold scanStep
  rw [if_neg (by simp [hns.1]), if_neg (by simp [hns.2])]
  rcases ht with h | h
  · rw [if_pos h, hse, stderr_trunc_not_append t h]
  · rw [if_neg (by simp [stderr_append_not_trunc t h]), if_pos h, hse, h]

/-- Claim C4 counterexample: the tokens of the line
`echo a > f1 > f2 | cat` put two stdout redirections in the first stage
of a pipeline; the pipeline assembler reports no syntax error (no stage
has `errorReported`), builds both stages — the later `> f2` wins, the
earlier `>` and `f1` remain among the words — and the pipeline is then
executed. -/
theorem c4_counterexample :
    assemble_pipeline ["echo".toList, "a".toList, ['>'], "f1".toList, ['>'],
        "f2".toList, ['|'], "cat".toList] =
      [⟨["echo".toList, "a".toList, ['>'], "f1".toList],
        ⟨some ("f2".toList, false), none⟩, false⟩,
       ⟨["cat".toList], ⟨none, none⟩, false⟩] := by
  decide

/-- Claim C4 (amended): two redirection operators targeting the same
stream make the single-command assembler fail with the
multiple-redirections syntax error, discarding the line; the multi-stage
pipeline path has no such error — its scan records the LAST same-stream
operator (shown for stdout), and the pipeline still executes. -/
theorem c4_same_stream (l1 l2 l3 : List (List Char)) (a b : List Char)
    (hab : (isStdoutOp a = true ∧ isStdoutOp b = true) ∨
           (isStderrOp a = true ∧ isStderrOp b = true)) :
    parse_args_with_redirection_toks (l1 ++ a :: (l2 ++ b :: l3)) = none ∧
    ((isStdoutOp a = true ∧ isStdoutOp b = true) →
      (∀ t ∈ l3, isStdoutOp t = false) →
      (pipelineScanRedirs (l1 ++ a :: (l2 ++ b :: l3)) ⟨0, none, none⟩).so =
        some (l1.length + 1 + l2.length, isStdoutAppend b)) := by
  constructor
  · have hscan : scanRedirs (l1 ++ a :: (l2 ++ b :: l3)) ⟨0, none, none⟩ = none := by
      rw [scanRedirs_append]
      cases h1 : scanRedirs l1 ⟨0, none, none⟩ with
      | none => rfl
      | some st1 =>
        show scanRedirs (a :: (l2 ++ b :: l3)) st1 = none
        have hmem : b ∈ l2 ++ b :: l3 :=
          List.mem_append_right l2 (List.mem_cons_self b l3)
        rcases hab with ⟨ha, hb⟩ | ⟨ha, hb⟩
        · cases hso : st1.so with
          | some p => simp [scanRedirs, scanStep_so_blocked a st1 p ha hso]
          | none =>
            simp only [scanRedirs, scanStep_stdout_sets a st1 ha hso]
            exact scanRedirs_so_blocked (l2 ++ b :: l3) (st1.idx, isStdoutAppend a)
              _ rfl ⟨b, hmem, hb⟩
        · cases hse : st1.se with
          | some p => simp [scanRedirs, scanStep_se_blocked a st1 p ha hse]
          | none =>
            simp only [scanRedirs, scanStep_stderr_sets a st1 ha hse]
            exact scanRedirs_se_blocked (l2 ++ b :: l3) (st1.idx, isStderrAppend a)
              _ rfl ⟨b, hmem, hb⟩
    simp [parse_args_with_redirection_toks, hscan]
  · rintro ⟨_, hb⟩ hl3
    rw [show l1 ++ a :: (l2 ++ b :: l3) = l1 ++ (a :: (l2 ++ b :: l3)) from rfl,
      pipelineScanRedirs_append]
    simp only [pipelineScanRedirs]
    rw [pipelineScanRedirs_append]
    simp only [pipelineScanRedirs]
    rw [pipelineScanRedirs_so_no l3 _ hl3, pipelineScanStep_stdout b _ hb]
    have hidx : (pipelineScanRedirs l2
        (pipelineScanStep a (pipelineScanRedirs l1 ⟨0, none, none⟩))).idx =
        l1.length + 1 + l2.length := by
      rw [pipelineScanRedirs_idx, pipelineScanStep_idx, pipelineScanRedirs_idx]
      simp
    rw [hidx]

/-- Claim C4 witness: the tokens of `echo > f1 > f2` (no pipe) are
rejected by the single-command assembler, while the pipeline scan of the
same tokens records the second `>` (index 3, truncate mode). -/
theorem c4_same_stream_witness :
    parse_args_with_redirection_toks
        ["echo".toList, ['>'], "f1".toList, ['>'], "f2".toList] = none ∧
    (pipelineScanRedirs ["echo".toList, ['>'], "f1".toList, ['>'], "f2".toList]
        ⟨0, none, none⟩).so = some (3, false) := by
  have h := c4_same_stream ["echo".toList] ["f1".toList] ["f2".toList] ['>'] ['>']
    (Or.inl ⟨by decide, by decide⟩)
  exact ⟨h.1, by simpa using h.2 ⟨by decide, by decide⟩ (by decide)⟩

/-- Claim C5 counterexample: in `echo > 2> f` the token after the stdout
operator is itself the operator token `2>`; the assembler succeeds and
records `2>` as the stdout redirection's file path (and `f`, the token
after `2>`, both as the stderr path and as a command word). -/
theorem c5_counterexample :
    parse_args_with_redirection_toks ["echo".toList, ['>'], ['2', '>'], "f".toList] =
      some ⟨["echo".toList, "f".toList],
            ⟨some (['2', '>'], false), some ("f".toList, false)⟩⟩ ∧
    isStderrOp ['2', '>'] = true := by
  decide

/-- Claim C5 (amended): a recorded redirection operator requires only
that SOME token follows it: when the operator is the last token the
assembler reports the missing-filename error and the line is discarded;
otherwise the immediately following token — whatever it is, operator or
word — is recorded as the file path with the operator's mode. -/
theorem c5_redirect_target (toks : List (List Char)) (st : ScanState)
    (hscan : scanRedirs toks ⟨0, none, none⟩ = some st) :
    (∀ k m, st.so = some (k, m) →
      ((toks[k + 1]? = none → parse_args_with_redirection_toks toks = none) ∧
       (∀ r, parse_args_with_redirection_toks toks = some r →
         r.redir.stdoutFile = (toks[k + 1]?).map (fun f => (f, m))))) ∧
    (∀ k m, st.se = some (k, m) →
      ((toks[k + 1]? = none → parse_args_with_redirection_toks toks = none) ∧
       (∀ r, parse_args_with_redirection_toks toks = some r →
         r.redir.stderrFile = (toks[k + 1]?).map (fun f => (f, m))))) := by
  constructor
  · intro k m hso
    constructor
    · intro hget
      simp only [parse_args_with_redirection_toks, hscan]
      rw [hso, show extractTarget toks (some (k, m)) = none by
        simp [extractTarget, hget]]
    · intro r hr
      simp only [parse_args_with_redirection_toks, hscan] at hr
      rw [hso] at hr
      cases hget : toks[k + 1]? with
      | none =>
        rw [show extractTarget toks (some (k, m)) = none by
          simp [extractTarget, hget]] at hr
        simp at hr
      | some f =>
        rw [show extractTarget toks (some (k, m)) = some (some (f, m)) by
          simp [extractTarget, hget]] at hr
        cases hse2 : extractTarget toks st.se with
        | none => rw [hse2] at hr; simp at hr
        | some seF =>
          rw [hse2] at hr
          simp only [Option.some.injEq] at hr
          rw [← hr]
          rfl
  · intro k m hse
    constructor
    · intro hget
      simp only [parse_args_with_redirection_toks, hscan]
      cases hso2 : extractTarget toks st.so with
      | none => rfl
      | some soF =>
        rw [hse, show extractTarget toks (some (k, m)) = none by
          simp [extractTarget, hget]]
    · intro r hr
      simp only [parse_args_with_redirection_toks, hscan] at hr
      cases hso2 : extractTarget toks st.so with
      | none => rw [hso2] at hr; simp at hr
      | some soF =>
        rw [hso2, hse] at hr
        cases hget : toks[k + 1]? with
        | none =>
          rw [show extractTarget toks (some (k, m)) = none by
            simp [extractTarget, hget]] at hr
          simp at hr
        | some f =>
          rw [show extractTarget toks (some (k, m)) = some (some (f, m)) by
            simp [extractTarget, hget]] at hr
          simp only [Option.some.injEq] at hr
          rw [← hr]
          rfl

/-- Claim C5 witness: `echo >` (operator last) is rejected, and in
`echo > 2> f` the stdout slot records the following token `2>` as its
path. -/
theorem c5_redirect_target_witness :
    parse_args_with_redirection_toks ["echo".toList, ['>']] = none ∧
    (∀ r, parse_args_with_redirection_toks
        ["echo".toList, ['>'], ['2', '>'], "f".toList] = some r →
      r.redir.stdoutFile = some (['2', '>'], false)) := by
  constructor
  · exact ((c5_redirect_target ["echo".toList, ['>']] ⟨2, some (1, false), none⟩
      (by decide)).1 1 false rfl).1 (by decide)
  · intro r hr
    have h2 := ((c5_redirect_target ["echo".toList, ['>'], ['2', '>'], "f".toList]
      ⟨4, some (1, false), some (2, false)⟩ (by decide)).1 1 false rfl).2 r hr
    simpa using h2

/-- Helper: with no recorded operator index, the rebuild loop copies
every token. -/
theorem dropRedirPairs_none (ts : List (List Char)) :
    ∀ i, dropRedirPairs none none i false ts = ts := by
  induction ts with
  | nil => intro i; rfl
  | cons t ts ih =>
    intro i
    simp only [dropRedirPairs]
    rw [if_neg (by simp), if_neg (by simp), ih (i + 1)]

/-- Helper: a recorded index below the walk position never fires. -/
theorem dropRedirPairs_lt (ts : List (List Char)) (j : Nat) :
    ∀ i, j < i → dropRedirPairs (some j) none i false ts = ts := by
  induction ts with
  | nil => intro i _; rfl
  | cons t ts ih =>
    intro i hj
    simp only [dropRedirPairs]
    rw [if_neg (by simp), if_neg (by simp; omega), ih (i + 1) (by omega)]

/-- Helper: the rebuild loop removes exactly the token at the recorded
index and the one after it, keeping everything else — including the
tokens after the removed pair. -/
theorem dropRedirPairs_at (x f : List Char) (l2 : List (List Char)) :
    ∀ (l1 : List (List Char)) (i : Nat),
    dropRedirPairs (some (i + l1.length)) none i false (l1 ++ x :: f :: l2) =
      l1 ++ l2 := by
  intro l1
  induction l1 with
  | nil =>
    intro i
    simp only [List.nil_append, List.length_nil, Nat.add_zero, dropRedirPairs]
    rw [if_pos (Or.inl trivial), if_pos trivial]
    exact dropRedirPairs_lt l2 i (i + 1 + 1) (by omega)
  | cons t l1 ih =>
    intro i
    simp only [List.cons_append, dropRedirPairs]
    rw [if_neg (by simp), if_neg (by simp)]
    rw [show i + (t :: l1).length = i + 1 + l1.length by
      simp only [List.length_cons]; omega]
    simp only [List.append_eq]
    rw [ih (i + 1)]

/-- Helper: indexing just after the end of a known prefix. -/
theorem getElem?_after (l1 : List (List Char)) (x f : List Char)
    (l2 : List (List Char)) :
    (l1 ++ x :: f :: l2)[l1.length + 1]? = some f := by
  rw [List.getElem?_append_right (by omega)]
  rw [show l1.length + 1 - l1.length = 1 by omega]
  rw [List.getElem?_cons_succ, List.getElem?_cons_zero]

/-- Helper: an argv with no `NULL` cell shows every token. -/
theorem cellsToWords_map_some (ts : List (List Char)) :
    cellsToWords (ts.map some) = ts := by
  induction ts with
  | nil => rfl
  | cons t ts ih => simp [cellsToWords, ih]

/-- Helper: writing `NULL` over the cell just after a prefix truncates
the visible argv to that prefix. -/
theorem cellsToWords_set (x : List Char) (rest : List (List Char)) :
    ∀ l1 : List (List Char),
    cellsToWords (((l1 ++ x :: rest).map some).set l1.length none) = l1 := by
  intro l1
  induction l1 with
  | nil => rfl
  | cons t l1 ih =>
    simp only [List.cons_append, List.map_cons, List.length_cons]
    rw [show (some t :: (l1 ++ x :: rest).map some).set (l1.length + 1) none =
      some t :: ((l1 ++ x :: rest).map some).set l1.length none from rfl]
    simp only [cellsToWords]
    rw [ih]

/-- Helper: a stderr operator is no stdout operator, stated on the
combined stdout predicate. -/
theorem stderr_op_not_stdout (t : List Char) (h : isStderrOp t = true) :
    isStdoutOp t = false := by
  have hns := stderr_not_stdout t h
  simp [isStdoutOp, hns.1, hns.2]

/-- Helper: a stderr operator overwrites the pipeline scan's stderr slot
with the current index and its mode. -/
theorem pipelineScanStep_stderr (t : List Char) (st : ScanState)
    (ht : isStderrOp t = true) :
    pipelineScanStep t st = ⟨st.idx + 1, st.so, some (st.idx, isStderrAppend t)⟩ := by
  have hns := stderr_not_stdout t ht
  simp only [isStderrOp, Bool.or_eq_true] at ht
  unfold pipelineScanStep
  rw [if_neg (by simp [hns.1]), if_neg (by simp [hns.2])]
  rcases ht with h | h
  · rw [if_pos h, stderr_trunc_not_append t h]
  · rw [if_neg (by simp [stderr_append_not_trunc t h]), if_pos h, h]

/-- Helper: when one detection step succeeds, the loop continues on the
tail from the new state. -/
theorem scanRedirs_cons (t : List Char) (ts : List (List Char))
    (st st2 : ScanState) (h : scanStep t st = some st2) :
    scanRedirs (t :: ts) st = scanRedirs ts st2 := by
  simp only [scanRedirs, h]

/-- Helper: a recorded stderr index below the walk position never
fires. -/
theorem dropRedirPairs_lt_se (ts : List (List Char)) (j : Nat) :
    ∀ i, j < i → dropRedirPairs none (some j) i false ts = ts := by
  induction ts with
  | nil => intro i _; rfl
  | cons t ts ih =>
    intro i hj
    simp only [dropRedirPairs]
    rw [if_neg (by simp), if_neg (by simp; omega), ih (i + 1) (by omega)]

/-- Helper: with only a stderr index recorded, the rebuild loop removes
exactly the token at that index and the one after it. -/
theorem dropRedirPairs_at_se (x f : List Char) (l2 : List (List Char)) :
    ∀ (l1 : List (List Char)) (i : Nat),
    dropRedirPairs none (some (i + l1.length)) i false (l1 ++ x :: f :: l2) =
      l1 ++ l2 := by
  intro l1
  induction l1 with
  | nil =>
    intro i
    simp only [List.nil_append, List.length_nil, Nat.add_zero, dropRedirPairs]
    rw [if_pos (Or.inr trivial), if_pos trivial]
    exact dropRedirPairs_lt_se l2 i (i + 1 + 1) (by omega)
  | cons t l1 ih =>
    intro i
    simp only [List.cons_append, dropRedirPairs]
    rw [if_neg (by simp), if_neg (by simp)]
    rw [show i + (t :: l1).length = i + 1 + l1.length by
      simp only [List.length_cons]; omega]
    simp only [List.append_eq]
    rw [ih (i + 1)]

/-- Helper: two recorded indices both below the walk position never
fire. -/
theorem dropRedirPairs_lt2 (ts : List (List Char)) (j1 j2 : Nat) :
    ∀ i, j1 < i → j2 < i → dropRedirPairs (some j1) (some j2) i false ts = ts := by
  induction ts with
  | nil => intro i _ _; rfl
  | cons t ts ih =>
    intro i h1 h2
    simp only [dropRedirPairs]
    rw [if_neg (by simp), if_neg (by simp only [Option.some.injEq]; omega),
      ih (i + 1) (by omega) (by omega)]

/-- Helper: with two recorded indices on ADJACENT positions, the walk
skips the first index and the position after it (which is the second
recorded index itself), then keeps the following token: the second
operator's pair is never removed, only the operator token itself, as
part of the first pair. -/
theorem dropRedirPairs_at2 (a b f : List Char) (l2 : List (List Char)) :
    ∀ (l1 : List (List Char)) (i : Nat),
    dropRedirPairs (some (i + l1.length)) (some (i + l1.length + 1)) i false
      (l1 ++ a :: b :: f :: l2) = l1 ++ f :: l2 := by
  intro l1
  induction l1 with
  | nil =>
    intro i
    have hrest := dropRedirPairs_lt2 l2 i (i + 1) (i + 1 + 1 + 1) (by omega) (by omega)
    simp only [List.nil_append, List.length_nil, Nat.add_zero, dropRedirPairs]
    simp [hrest, show ¬(i = i + 1 + 1) by omega, show ¬(i + 1 = i + 1 + 1) by omega]
  | cons t l1 ih =>
    intro i
    simp only [List.cons_append, dropRedirPairs]
    rw [if_neg (by simp),
      if_neg (by simp only [Option.some.injEq, List.length_cons]; omega)]
    rw [show i + (t :: l1).length = i + 1 + l1.length by
      simp only [List.length_cons]; omega]
    simp only [List.append_eq]
    rw [ih (i + 1)]

/-- Helper: indexing two cells after the end of a known prefix. -/
theorem getElem?_after2 (l1 : List (List Char)) (x y f : List Char)
    (l2 : List (List Char)) :
    (l1 ++ x :: y :: f :: l2)[l1.length + 1 + 1]? = some f := by
  rw [List.getElem?_append_right (by omega)]
  rw [show l1.length + 1 + 1 - l1.length = 1 + 1 by omega]
  rw [List.getElem?_cons_succ, List.getElem?_cons_succ, List.getElem?_cons_zero]

/-- Claim C6 counterexample: in `cat < in` the RedirIn operator `<` is
not an output-redirection operator, so the assembler removes nothing:
the stage's words contain the operator token `<` (and its path), not
only the remaining Word tokens as the claim states. -/
theorem c6_counterexample :
    parse_args_with_redirection_toks ["cat".toList, ['<'], "in".toList] =
      some ⟨["cat".toList, ['<'], "in".toList], ⟨none, none⟩⟩ ∧
    isOperatorTok ['<'] = true := by
  decide

/-- Claim C6 (amended): only the six recognized output-redirection
operators (`>`, `1>`, `>>`, `1>>`, `2>`, `2>>`) ever trigger removal; a
token that is not one of them — `<` and other unhandled operator tokens
included — is never removed for being an operator.  Exactly as proved:
(a) with no recognized operator among the tokens, both assembler paths
keep every token, in order, as the stage's words; (b, c) with a lone
recognized stdout (resp. stderr) operator among otherwise
operator-free tokens, the single-command path removes exactly the
operator and the one token following it — Word tokens after the
redirection stay — while the pipeline path truncates the words at the
operator's argv cell, dropping the tokens after it; (d) when a
recognized stderr operator immediately follows a recognized stdout
operator (as in `echo > 2> f`), the single-command path removes the
stdout operator together with the stderr operator (the latter being
recorded as the stdout file path), and the token after the stderr
operator stays among the words even though it is also recorded as the
stderr file path — so the walk does NOT remove the token following
every recognized operator. -/
theorem c6_stage_words (toks : List (List Char)) :
    ((∀ t ∈ toks, isStdoutOp t = false ∧ isStderrOp t = false) →
      parse_args_with_redirection_toks toks = some ⟨toks, ⟨none, none⟩⟩ ∧
      (build_pipeline_stage toks).words = toks) ∧
    (∀ (l1 : List (List Char)) (a f : List Char) (l2 : List (List Char)),
      toks = l1 ++ a :: f :: l2 →
      isStdoutOp a = true →
      (∀ t ∈ l1, isStdoutOp t = false ∧ isStderrOp t = false) →
      (∀ t ∈ f :: l2, isStdoutOp t = false ∧ isStderrOp t = false) →
      parse_args_with_redirection_toks toks =
        some ⟨l1 ++ l2, ⟨some (f, isStdoutAppend a), none⟩⟩ ∧
      (build_pipeline_stage toks).words = l1) ∧
    (∀ (l1 : List (List Char)) (a f : List Char) (l2 : List (List Char)),
      toks = l1 ++ a :: f :: l2 →
      isStderrOp a = true →
      (∀ t ∈ l1, isStdoutOp t = false ∧ isStderrOp t = false) →
      (∀ t ∈ f :: l2, isStdoutOp t = false ∧ isStderrOp t = false) →
      parse_args_with_redirection_toks toks =
        some ⟨l1 ++ l2, ⟨none, some (f, isStderrAppend a)⟩⟩ ∧
      (build_pipeline_stage toks).words = l1) ∧
    (∀ (l1 : List (List Char)) (a b f : List Char) (l2 : List (List Char)),
      toks = l1 ++ a :: b :: f :: l2 →
      isStdoutOp a = true →
      isStderrOp b = true →
      (∀ t ∈ l1, isStdoutOp t = false ∧ isStderrOp t = false) →
      (∀ t ∈ f :: l2, isStdoutOp t = false ∧ isStderrOp t = false) →
      parse_args_with_redirection_toks toks =
        some ⟨l1 ++ f :: l2,
              ⟨some (b, isStdoutAppend a), some (f, isStderrAppend b)⟩⟩) := by
  refine ⟨?_, ?_, ?_, ?_⟩
  · intro h
    have hscan := scanRedirs_no_ops toks ⟨0, none, none⟩ h
    constructor
    · simp [parse_args_with_redirection_toks, hscan, extractTarget,
        dropRedirPairs_none]
    · have hpso : (pipelineScanRedirs toks ⟨0, none, none⟩).so = none := by
        rw [pipelineScanRedirs_so_no toks _ (fun t ht => (h t ht).1)]
      have hpse : (pipelineScanRedirs toks ⟨0, none, none⟩).se = none := by
        rw [pipelineScanRedirs_se_no toks _ (fun t ht => (h t ht).2)]
      simp [build_pipeline_stage, hpso, hpse, pipelineStageStderr,
        cellsToWords_map_some]
  · rintro l1 a f l2 rfl ha hcl1 hcl2
    have hs1 : scanStep a (⟨0 + l1.length, none, none⟩ : ScanState) =
        some ⟨0 + l1.length + 1, some (0 + l1.length, isStdoutAppend a), none⟩ :=
      scanStep_stdout_sets a ⟨0 + l1.length, none, none⟩ ha rfl
    have hscan : scanRedirs (l1 ++ a :: f :: l2) ⟨0, none, none⟩ =
        some ⟨l1.length + 1 + (f :: l2).length,
              some (l1.length, isStdoutAppend a), none⟩ := by
      rw [scanRedirs_append, scanRedirs_no_ops l1 _ hcl1]
      show scanRedirs (a :: f :: l2) ⟨0 + l1.length, none, none⟩ = _
      rw [scanRedirs_cons a (f :: l2) _ _ hs1]
      rw [scanRedirs_no_ops (f :: l2) _ hcl2]
      norm_num
    constructor
    · simp only [parse_args_with_redirection_toks, hscan]
      rw [show extractTarget (l1 ++ a :: f :: l2)
            (some (l1.length, isStdoutAppend a)) =
          some (some (f, isStdoutAppend a)) by
        simp only [extractTarget]
        rw [getElem?_after]]
      rw [show extractTarget (l1 ++ a :: f :: l2) (none : Option (Nat × Bool)) =
        some none from rfl]
      have hdrop := dropRedirPairs_at a f l2 l1 0
      simp only [Nat.zero_add] at hdrop
      simp [hdrop]
    · have hso : (pipelineScanRedirs (l1 ++ a :: f :: l2) ⟨0, none, none⟩).so =
          some (l1.length, isStdoutAppend a) := by
        rw [pipelineScanRedirs_append]
        rw [show pipelineScanRedirs (a :: f :: l2)
            (pipelineScanRedirs l1 ⟨0, none, none⟩) =
          pipelineScanRedirs (f :: l2)
            (pipelineScanStep a (pipelineScanRedirs l1 ⟨0, none, none⟩)) from rfl]
        rw [pipelineScanRedirs_so_no (f :: l2) _ (fun t ht => (hcl2 t ht).1)]
        rw [pipelineScanStep_stdout a _ ha]
        rw [pipelineScanRedirs_idx]
        norm_num
      have hse : (pipelineScanRedirs (l1 ++ a :: f :: l2) ⟨0, none, none⟩).se =
          none := by
        rw [pipelineScanRedirs_append]
        rw [show pipelineScanRedirs (a :: f :: l2)
            (pipelineScanRedirs l1 ⟨0, none, none⟩) =
          pipelineScanRedirs (f :: l2)
            (pipelineScanStep a (pipelineScanRedirs l1 ⟨0, none, none⟩)) from rfl]
        rw [pipelineScanRedirs_se_no (f :: l2) _ (fun t ht => (hcl2 t ht).2)]
        rw [pipelineScanStep_stdout a _ ha]
        show (pipelineScanRedirs l1 ⟨0, none, none⟩).se = none
        rw [pipelineScanRedirs_se_no l1 _ (fun t ht => (hcl1 t ht).2)]
      simp only [build_pipeline_stage, hso, getElem?_after, hse]
      simp only [pipelineStageStderr]
      exact cellsToWords_set a (f :: l2) l1
  · rintro l1 a f l2 rfl ha hcl1 hcl2
    have hs1 : scanStep a (⟨0 + l1.length, none, none⟩ : ScanState) =
        some ⟨0 + l1.length + 1, none, some (0 + l1.length, isStderrAppend a)⟩ :=
      scanStep_stderr_sets a ⟨0 + l1.length, none, none⟩ ha rfl
    have hscan : scanRedirs (l1 ++ a :: f :: l2) ⟨0, none, none⟩ =
        some ⟨l1.length + 1 + (f :: l2).length, none,
              some (l1.length, isStderrAppend a)⟩ := by
      rw [scanRedirs_append, scanRedirs_no_ops l1 _ hcl1]
      show scanRedirs (a :: f :: l2) ⟨0 + l1.length, none, none⟩ = _
      rw [scanRedirs_cons a (f :: l2) _ _ hs1]
      rw [scanRedirs_no_ops (f :: l2) _ hcl2]
      norm_num
    constructor
    · simp only [parse_args_with_redirection_toks, hscan]
      rw [show extractTarget (l1 ++ a :: f :: l2)
            (some (l1.length, isStderrAppend a)) =
          some (some (f, isStderrAppend a)) by
        simp only [extractTarget]
        rw [getElem?_after]]
      rw [show extractTarget (l1 ++ a :: f :: l2) (none : Option (Nat × Bool)) =
        some none from rfl]
      have hdrop := dropRedirPairs_at_se a f l2 l1 0
      simp only [Nat.zero_add] at hdrop
      simp [hdrop]
    · have hpso : (pipelineScanRedirs (l1 ++ a :: f :: l2) ⟨0, none, none⟩).so =
          none := by
        refine pipelineScanRedirs_so_no _ _ ?_
        intro t ht
        rcases List.mem_append.mp ht with h1 | h2
        · exact (hcl1 t h1).1
        · rcases List.mem_cons.mp h2 with rfl | h3
          · exact stderr_op_not_stdout t ha
          · exact (hcl2 t h3).1
      have hpse : (pipelineScanRedirs (l1 ++ a :: f :: l2) ⟨0, none, none⟩).se =
          some (l1.length, isStderrAppend a) := by
        rw [pipelineScanRedirs_append]
        rw [show pipelineScanRedirs (a :: f :: l2)
            (pipelineScanRedirs l1 ⟨0, none, none⟩) =
          pipelineScanRedirs (f :: l2)
            (pipelineScanStep a (pipelineScanRedirs l1 ⟨0, none, none⟩)) from rfl]
        rw [pipelineScanRedirs_se_no (f :: l2) _ (fun t ht => (hcl2 t ht).2)]
        rw [pipelineScanStep_stderr a _ ha]
        rw [pipelineScanRedirs_idx]
        norm_num
      simp only [build_pipeline_stage, hpso, hpse]
      simp only [pipelineStageStderr, getElem?_after]
      exact cellsToWords_set a (f :: l2) l1
  · rintro l1 a b f l2 rfl ha hb hcl1 hcl2
    have hs1 : scanStep a (⟨0 + l1.length, none, none⟩ : ScanState) =
        some ⟨0 + l1.length + 1, some (0 + l1.length, isStdoutAppend a), none⟩ :=
      scanStep_stdout_sets a ⟨0 + l1.length, none, none⟩ ha rfl
    have hs2 : scanStep b (⟨0 + l1.length + 1,
          some (0 + l1.length, isStdoutAppend a), none⟩ : ScanState) =
        some ⟨0 + l1.length + 1 + 1, some (0 + l1.length, isStdoutAppend a),
              some (0 + l1.length + 1, isStderrAppend b)⟩ :=
      scanStep_stderr_sets b _ hb rfl
    have hscan : scanRedirs (l1 ++ a :: b :: f :: l2) ⟨0, none, none⟩ =
        some ⟨l1.length + 1 + 1 + (f :: l2).length,
              some (l1.length, isStdoutAppend a),
              some (l1.length + 1, isStderrAppend b)⟩ := by
      rw [scanRedirs_append, scanRedirs_no_ops l1 _ hcl1]
      show scanRedirs (a :: b :: f :: l2) ⟨0 + l1.length, none, none⟩ = _
      rw [scanRedirs_cons a (b :: f :: l2) _ _ hs1]
      rw [scanRedirs_cons b (f :: l2) _ _ hs2]
      rw [scanRedirs_no_ops (f :: l2) _ hcl2]
      norm_num
    simp only [parse_args_with_redirection_toks, hscan]
    rw [show extractTarget (l1 ++ a :: b :: f :: l2)
          (some (l1.length, isStdoutAppend a)) =
        some (some (b, isStdoutAppend a)) by
      simp only [extractTarget]
      rw [getElem?_after]]
    rw [show extractTarget (l1 ++ a :: b :: f :: l2)
          (some (l1.length + 1, isStderrAppend b)) =
        some (some (f, isStderrAppend b)) by
      simp only [extractTarget]
      rw [getElem?_after2]]
    have hdrop := dropRedirPairs_at2 a b f l2 l1 0
    simp only [Nat.zero_add] at hdrop
    simp [hdrop]

/-- Claim C6 witness: for `echo x > f y` the single-command stage words
are `echo x y` (the word after the redirection survives) with stdout
file `f`, while the pipeline-path stage words are truncated to
`echo x`; and for the overlap `echo >> 2> out` the single-command stage
words are `echo out` — the token after the recognized `2>` stays — with
stdout file `2>` (append) and stderr file `out`. -/
theorem c6_stage_words_witness :
    (parse_args_with_redirection_toks
        ["echo".toList, "x".toList, ['>'], "f".toList, "y".toList] =
      some ⟨["echo".toList, "x".toList, "y".toList],
            ⟨some ("f".toList, false), none⟩⟩ ∧
    (build_pipeline_stage
        ["echo".toList, "x".toList, ['>'], "f".toList, "y".toList]).words =
      ["echo".toList, "x".toList]) ∧
    parse_args_with_redirection_toks
        ["echo".toList, ['>', '>'], ['2', '>'], "out".toList] =
      some ⟨["echo".toList, "out".toList],
            ⟨some (['2', '>'], true), some ("out".toList, false)⟩⟩ := by
  have h := (c6_stage_words
      (["echo".toList, "x".toList] ++ ['>'] :: "f".toList :: ["y".toList])).2.1
    ["echo".toList, "x".toList] ['>'] "f".toList ["y".toList] rfl (by decide)
    (by decide) (by decide)
  have h2 := (c6_stage_words
      (["echo".toList] ++ ['>', '>'] :: ['2', '>'] :: "out".toList :: [])).2.2.2
    ["echo".toList] ['>', '>'] ['2', '>'] "out".toList [] rfl (by decide)
    (by decide) (by decide) (by decide)
  refine ⟨⟨?_, ?_⟩, ?_⟩
  · simpa [show isStdoutAppend ['>'] = false by decide] using h.1
  · simpa using h.2
  · simpa [show isStdoutAppend ['>', '>'] = true by decide,
      show isStderrAppend ['2', '>'] = false by decide] using h2

/-- Claim C7 evaluation at the failing input: a built-in with a stdout
redirection whose `open` fails (`setup_redirection` with `openOk :=
false` returns `-1`) is still run by `src/main.c` lines 1333-1352, while
the preceding revision of the same code skipped it. -/
theorem c7_code_runs_builtin_after_failed_setup :
    run_builtin_line true false false true =
      { builtinRan := true, stdoutRestored := false, stderrRestored := false } ∧
    setup_redirection false true true = none ∧
    run_builtin_line_rev1 true false false true =
      { builtinRan := false, stdoutRestored := false, stderrRestored := false } := by
  decide

/-- Claim C8 evaluation at the failing input: for an unresolved command
`nonsuch`, the message `nonsuch: command not found` is printed on
standard output (not standard error) and the REPL continues. -/
theorem c8_not_found_on_stdout :
    run_external_branch ("nonsuch").toList none =
      ([⟨StreamId.stdout, ("nonsuch: command not found\n").toList⟩], true) ∧
    StreamId.stdout ≠ StreamId.stderr := by
  decide

/-- Claim C9 evaluation at the failing input: a failing
`cd /nonexistent` prints `cd: /nonexistent: No such file or directory`
on standard output (not standard error), and nothing terminates the
shell. -/
theorem c9_cd_failure_on_stdout :
    handle_cd_cmd (some ("/root").toList) (some ("/nonexistent").toList) (fun _ => false) =
      [⟨StreamId.stdout, ("cd: /nonexistent: No such file or directory\n").toList⟩] ∧
    StreamId.stdout ≠ StreamId.stderr := by
  decide

/-- Claim C10 counterexample: when `HOME ++ remainder` exceeds the
`PATH_MAX` buffer (here 4092 + 6 = 4098 characters), the computed target
is the truncation, not the plain concatenation the claim states. -/
theorem c10_counterexample :
    cd_target (some (List.replicate 4092 'a')) (some ('~' :: List.replicate 6 'b')) ≠
      some (List.replicate 4092 'a' ++ List.replicate 6 'b') := by
  intro hEq
  rw [cd_target_tilde _ _ (by decide)] at hEq
  have h3 := congrArg List.length (Option.some.inj hEq)
  rw [List.length_take, List.length_append, List.length_replicate,
    List.length_replicate] at h3
  simp [PATH_MAX] at h3

/-- Claim C10 (amended): a cd argument `~rest` (with nonempty `rest`)
targets `HOME ++ rest` truncated by the `PATH_MAX` buffer to its first
4095 characters — equal to the plain concatenation whenever it fits, and
with no user-name lookup — and an empty-string argument behaves exactly
like an absent argument. -/
theorem c10_tilde_expansion (h rest : List Char) (hne : rest ≠ []) :
    cd_target (some h) (some ('~' :: rest)) = some ((h ++ rest).take (PATH_MAX - 1)) ∧
    ((h ++ rest).length ≤ PATH_MAX - 1 →
      cd_target (some h) (some ('~' :: rest)) = some (h ++ rest)) ∧
    (∀ hm : Option (List Char), cd_target hm (some []) = cd_target hm none) := by
  refine ⟨cd_target_tilde h rest hne, ?_, ?_⟩
  · intro hlen
    rw [cd_target_tilde h rest hne, List.take_of_length_le hlen]
  · intro hm
    cases hm <;> simp [cd_target]

/-- Claim C10 witness: at `HOME = /home/u` and argument `~abc` the
target is `/home/u` followed by `abc`. -/
theorem c10_tilde_expansion_witness :
    cd_target (some ("/home/u").toList) (some ('~' :: ("abc").toList)) =
      some (("/home/u").toList ++ ("abc").toList) :=
  (c10_tilde_expansion ("/home/u").toList ("abc").toList (by decide)).2.1 (by decide)

end Shell
